import Mathlib

/-!
# Verification of the balance-reservation and settlement core

A shallow embedding of the wallet/transaction ledger core of the
transfer-backend service, translated from:

* `src/controllers/transactionController.ts` (`createTransfer`,
  `updateTransactionStatus`),
* `src/controllers/webhookController.ts` (`handleCircleWebhook` and the
  per-event handlers, `RampnowWebhookController.handle`),
* `src/controllers/walletController` (`addFunds`),
* `src/services/exchangeRateService.ts` (`getExchangeRate`),
* `src/services/circleService` / `rampnowService` (`verifyWebhookSignature`).

Monetary values (JS numbers / Prisma `Decimal` in the source) are modelled
as exact rationals `ℚ`; database rows as Lean structures held in lists;
each `await prisma...` call as the corresponding pure list operation; a
thrown exception that reaches a `catch` block as an explicit error result
with the already-committed writes kept (the source performs no rollback).
-/

namespace TransferBackend

/-- Transaction status enum (Prisma `TransactionStatus`). -/
inductive TxStatus where
  | PENDING
  | PROCESSING
  | COMPLETED
  | FAILED
deriving DecidableEq, Repr

/-- Transaction type enum (Prisma `TransactionType`). -/
inductive TxType where
  | TRANSFER_SEND
  | TRANSFER_RECEIVE
  | DEPOSIT
  | ONRAMP
deriving DecidableEq, Repr

/-- A row of the `wallets` table. -/
structure Wallet where
  id : Nat
  userId : Nat
  currency : String
  balance : ℚ
  availableBalance : ℚ
  reservedBalance : ℚ
  isActive : Bool
deriving DecidableEq, Repr

/-- A row of the `transactions` table (the fields the core reads/writes). -/
structure Transaction where
  id : Nat
  userId : Nat
  walletId : Nat
  type : TxType
  status : TxStatus
  amount : ℚ
  currency : String
  fee : ℚ
  exchangeRate : Option ℚ
  circleTransferId : Option String
  circleStatus : Option String
  completedAtSet : Bool
deriving DecidableEq, Repr

/-- A row of the `transaction_status_history` table. -/
structure HistoryRow where
  transactionId : Nat
  status : TxStatus
  message : String
deriving DecidableEq, Repr

/-- A row of the `onramp_transactions` table (the fields
`RampnowWebhookController.handle` reads/writes; the provider session id is
stored in the reused `circleTransferId` column). -/
structure OnrampTx where
  id : Nat
  walletId : Nat
  circleTransferId : Option String
  usdcAmount : ℚ
  status : TxStatus
  circleStatus : Option String
  completedAtSet : Bool
deriving DecidableEq, Repr

/-- The ledger database state threaded through every operation. -/
structure LedgerState where
  wallets : List Wallet
  transactions : List Transaction
  history : List HistoryRow
  onrampTransactions : List OnrampTx
  onrampHistory : List HistoryRow
  nextTxId : Nat
deriving DecidableEq, Repr

/-- `prisma.wallet.findFirst({where:{userId, currency, isActive:true}})`. -/
def findWallet (st : LedgerState) (userId : Nat) (currency : String) :
    Option Wallet :=
  st.wallets.find? fun w =>
    w.userId = userId && w.currency = currency && w.isActive

/-- `prisma.wallet.findUnique({where:{id}})`. -/
def findWalletById (st : LedgerState) (wid : Nat) : Option Wallet :=
  st.wallets.find? fun w => w.id = wid

/-- `prisma.wallet.update({where:{id: wid}, data: ...})` — applies `f` to
the wallet row with id `wid`. -/
def updateWallet (st : LedgerState) (wid : Nat) (f : Wallet → Wallet) :
    LedgerState :=
  { st with wallets := st.wallets.map fun w => if w.id = wid then f w else w }

/-- `prisma.transaction.update({where:{id: tid}, data: ...})`. -/
def updateTx (st : LedgerState) (tid : Nat) (f : Transaction → Transaction) :
    LedgerState :=
  { st with transactions :=
      st.transactions.map fun t => if t.id = tid then f t else t }

/-- `prisma.transaction.findFirst({where:{circleTransferId}})`. -/
def findTxByCircleId (st : LedgerState) (transferId : String) :
    Option Transaction :=
  st.transactions.find? fun t => t.circleTransferId = some transferId

/-- `prisma.transactionStatusHistory.create`. -/
def appendHistory (st : LedgerState) (row : HistoryRow) : LedgerState :=
  { st with history := st.history ++ [row] }

/-- Outcome of `TransactionController.createTransfer` as seen by the caller. -/
inductive TransferResult where
  /-- 201: transfer initiated, transaction id returned. -/
  | created (txId : Nat)
  /-- 404: source wallet not found. -/
  | walletNotFound
  /-- 400: insufficient balance including fees. -/
  | insufficientFunds
  /-- 500: the catch-all error handler fired. -/
  | serverError
deriving DecidableEq, Repr

/-- `const feePercentage = 0.015; // 1.5% transfer fee`. -/
def feePercentage : ℚ := 15 / 1000

/-- The committed part of `TransactionController.createTransfer` (before the
optional Circle Gateway call): find the active source wallet; compute
`transferFee = amount * feePercentage` and
`totalDeduction = amount + transferFee`; reject with 400 when
`availableBalance < totalDeduction`; otherwise create the PENDING
transaction row (storing the fee and the exchange-rate snapshot), move
`totalDeduction` from `availableBalance` to `reservedBalance`, and append
a PENDING history row.  The exchange rate fetched from
`ExchangeRateService.getExchangeRate` is passed in as `exchangeRate`. -/
def createTransfer (st : LedgerState) (userId : Nat) (sourceWallet : String)
    (amount : ℚ) (exchangeRate : ℚ) : LedgerState × TransferResult :=
  match findWallet st userId sourceWallet with
  | none => (st, .walletNotFound)
  | some wallet =>
    let transferFee := amount * feePercentage
    let totalDeduction := amount + transferFee
    if wallet.availableBalance < totalDeduction then
      (st, .insufficientFunds)
    else
      let tx : Transaction :=
        { id := st.nextTxId
          userId := userId
          walletId := wallet.id
          type := .TRANSFER_SEND
          status := .PENDING
          amount := amount
          currency := sourceWallet
          fee := transferFee
          exchangeRate := some exchangeRate
          circleTransferId := none
          circleStatus := none
          completedAtSet := false }
      let st1 : LedgerState :=
        { st with transactions := st.transactions ++ [tx]
                  nextTxId := st.nextTxId + 1 }
      let st2 := updateWallet st1 wallet.id fun w =>
        { w with availableBalance := w.availableBalance - totalDeduction
                 reservedBalance := w.reservedBalance + totalDeduction }
      let st3 := appendHistory st2
        ⟨tx.id, .PENDING, "Transfer initiated - validating recipient details"⟩
      (st3, .created tx.id)

/-- Full `TransactionController.createTransfer` including the Circle
Gateway hand-off.  When the authenticated user has a `circleCustomerId`,
the controller calls `circleService.createGatewayTransfer`; `gateway` is
its outcome: `some gid` is a returned transfer id, `none` is a thrown
error.  On success the transaction row gains the gateway id and a
PROCESSING history row.  On a throw, control jumps to the catch block,
which only sends a 500 response: the already-committed reservation writes
stay in place. -/
def createTransferFull (st : LedgerState) (userId : Nat)
    (sourceWallet : String) (amount : ℚ) (exchangeRate : ℚ)
    (hasCircleCustomer : Bool) (gateway : Option String) :
    LedgerState × TransferResult :=
  match createTransfer st userId sourceWallet amount exchangeRate with
  | (st1, .created txId) =>
    if hasCircleCustomer then
      match gateway with
      | some gid =>
        let st2 := updateTx st1 txId fun t =>
          { t with circleTransferId := some gid
                   circleStatus := some "GATEWAY_PROCESSING" }
        let st3 := appendHistory st2
          ⟨txId, .PROCESSING, "Processing instant settlement"⟩
        (st3, .created txId)
      | none => (st1, .serverError)
    else (st1, .created txId)
  | (st1, r) => (st1, r)

/-! ## Webhook reconciliation (`WebhookController`) -/

/-- `WebhookController.handleTransactionCreated`: look the transaction up
by `circleTransferId`; when found, append a PROCESSING history row only. -/
def handleTransactionCreated (st : LedgerState) (transferId : String) :
    LedgerState :=
  match findTxByCircleId st transferId with
  | none => st
  | some tx =>
    appendHistory st ⟨tx.id, .PROCESSING, "Circle Gateway transfer initiated"⟩

/-- `WebhookController.handleTransactionConfirmed`: append a PROCESSING
history row only. -/
def handleTransactionConfirmed (st : LedgerState) (transferId : String) :
    LedgerState :=
  match findTxByCircleId st transferId with
  | none => st
  | some tx =>
    appendHistory st ⟨tx.id, .PROCESSING, "Transaction confirmed on blockchain"⟩

/-- `WebhookController.handleTransactionCompleted`: look the transaction up
by `circleTransferId`; when found, set its status to COMPLETED (with
`completedAt`), append a COMPLETED history row, then decrement the owning
wallet's `balance` and `reservedBalance` by `amount + fee`.  The source
performs these writes unconditionally — it never inspects the
transaction's current status. -/
def handleTransactionCompleted (st : LedgerState) (transferId : String) :
    LedgerState :=
  match findTxByCircleId st transferId with
  | none => st
  | some tx =>
    let st1 := updateTx st tx.id fun t =>
      { t with status := .COMPLETED
               completedAtSet := true
               circleStatus := some "COMPLETED" }
    let st2 := appendHistory st1
      ⟨tx.id, .COMPLETED, "Transfer completed successfully"⟩
    match findWalletById st2 tx.walletId with
    | none => st2
    | some wallet =>
      let totalDeduction := tx.amount + tx.fee
      updateWallet st2 wallet.id fun w =>
        { w with balance := w.balance - totalDeduction
                 reservedBalance := w.reservedBalance - totalDeduction }

/-- `WebhookController.handleTransactionFailed`: set the transaction's
status to FAILED, append a FAILED history row, then move `amount + fee`
from the owning wallet's `reservedBalance` back to `availableBalance`.
Like completion, the source never inspects the current status first. -/
def handleTransactionFailed (st : LedgerState) (transferId : String) :
    LedgerState :=
  match findTxByCircleId st transferId with
  | none => st
  | some tx =>
    let st1 := updateTx st tx.id fun t =>
      { t with status := .FAILED
               circleStatus := some "FAILED" }
    let st2 := appendHistory st1 ⟨tx.id, .FAILED, "Transfer failed"⟩
    match findWalletById st2 tx.walletId with
    | none => st2
    | some wallet =>
      let totalDeduction := tx.amount + tx.fee
      updateWallet st2 wallet.id fun w =>
        { w with availableBalance := w.availableBalance + totalDeduction
                 reservedBalance := w.reservedBalance - totalDeduction }

/-- `CircleService.verifyWebhookSignature` as written in the source:

```ts
verifyWebhookSignature(payload: string, signature: string): boolean {
  // TODO: Implement webhook signature verification
  // For now, return true in development
  return config.NODE_ENV === 'development' || true;
}
``` -/
def circleVerifyWebhookSignature (nodeEnv : String)
    (payload signature : String) : Bool :=
  nodeEnv = "development" || true

/-- An inbound Circle webhook event: `{type, data:{id, ...}}`.  `dataId`
is `event.data?.id`. -/
structure CircleEvent where
  type : String
  dataId : Option String
deriving DecidableEq, Repr

/-- Per-event dispatch of `handleCircleWebhook` (each handler first guards
`if (!transferId) return;`). -/
def dispatchCircleEvent (st : LedgerState) (event : CircleEvent) :
    LedgerState :=
  match event.dataId with
  | none => st
  | some transferId =>
    if event.type = "transactions.created" ∨ event.type = "transaction.created" then
      handleTransactionCreated st transferId
    else if event.type = "transactions.confirmed" ∨ event.type = "transaction.confirmed" then
      handleTransactionConfirmed st transferId
    else if event.type = "transactions.completed" ∨ event.type = "transaction.completed" then
      handleTransactionCompleted st transferId
    else if event.type = "transactions.failed" ∨ event.type = "transaction.failed" then
      handleTransactionFailed st transferId
    else
      -- wallets.created / users.created only log; unknown types are logged
      st

/-- `WebhookController.handleCircleWebhook`: verify the signature (reject
with 401 and no mutation on failure), dispatch on the event type, then
acknowledge with 200. -/
def handleCircleWebhook (st : LedgerState) (nodeEnv : String)
    (payload signature : String) (event : CircleEvent) :
    LedgerState × Nat :=
  if ¬ circleVerifyWebhookSignature nodeEnv payload signature then
    (st, 401)
  else
    (dispatchCircleEvent st event, 200)

/-! ## `TransactionController.updateTransactionStatus` -/

/-- `updateTransactionStatus`: find the caller's transaction by id; set
its status to the requested value (setting `completedAt` when COMPLETED),
append a history row, and — when the new status is COMPLETED — decrement
the wallet's `balance` and `reservedBalance` by `amount + fee`.  The
source applies the requested status unconditionally, whatever the current
status is.  Returns `false` (a 404) when the transaction is not found. -/
def updateTransactionStatus (st : LedgerState) (userId txId : Nat)
    (newStatus : TxStatus) (message : String) : LedgerState × Bool :=
  match st.transactions.find? (fun t => t.id = txId && t.userId = userId) with
  | none => (st, false)
  | some tx =>
    let st1 := updateTx st tx.id fun t =>
      { t with status := newStatus
               completedAtSet :=
                 if newStatus = .COMPLETED then true else t.completedAtSet }
    let st2 := appendHistory st1 ⟨tx.id, newStatus, message⟩
    if newStatus = .COMPLETED then
      match findWalletById st2 tx.walletId with
      | none => (st2, true)
      | some wallet =>
        let totalDeduction := tx.amount + tx.fee
        (updateWallet st2 wallet.id fun w =>
          { w with balance := w.balance - totalDeduction
                   reservedBalance := w.reservedBalance - totalDeduction },
         true)
    else (st2, true)

/-! ## `WalletController.addFunds` -/

/-- Outcome of `addFunds` as seen by the caller. -/
inductive AddFundsResult where
  /-- 400: `Currency and positive amount are required`. -/
  | badRequest
  /-- 404: wallet not found. -/
  | walletNotFound
  /-- 200: funds added. -/
  | ok
deriving DecidableEq, Repr

/-- `WalletController.addFunds`: validate
`if (!currency || !amount || amount <= 0)` (for a numeric amount, the
falsiness test `!amount` means `amount = 0`, subsumed by `amount <= 0`);
find the active wallet; increment its `balance` and `availableBalance` by
`amount`; record a COMPLETED DEPOSIT transaction with `fee: 0`. -/
def addFunds (st : LedgerState) (userId : Nat) (currency : String)
    (amount : ℚ) : LedgerState × AddFundsResult :=
  if currency = "" ∨ amount ≤ 0 then
    (st, .badRequest)
  else
    match findWallet st userId currency with
    | none => (st, .walletNotFound)
    | some wallet =>
      let st1 := updateWallet st wallet.id fun w =>
        { w with balance := w.balance + amount
                 availableBalance := w.availableBalance + amount }
      let tx : Transaction :=
        { id := st1.nextTxId
          userId := userId
          walletId := wallet.id
          type := .DEPOSIT
          status := .COMPLETED
          amount := amount
          currency := currency
          fee := 0
          exchangeRate := none
          circleTransferId := none
          circleStatus := none
          completedAtSet := false }
      ({ st1 with transactions := st1.transactions ++ [tx]
                  nextTxId := st1.nextTxId + 1 },
       .ok)

/-! ## `RampnowService.verifyWebhookSignature` and
`RampnowWebhookController.handle`

The HMAC-SHA256 primitive (`crypto.createHmac('sha256', secret)`) is kept
abstract as a function parameter `hmacHex : String → String → String`
(secret, message ↦ lowercase hex digest); the verification logic around
it is translated literally. -/

/-- `RampnowService.verifyWebhookSignature(rawBody, signature?)`:

```ts
if (!signature || !config.RAMPNOW_WEBHOOK_SECRET) {
  if (process.env.NODE_ENV === 'development') { ...; return true; }
  return false;
}
const expectedSignature = hmacSha256Hex(secret, rawBody).toLowerCase();
return signature.toLowerCase() === expectedSignature.toLowerCase();
```

`webhookSecret = none` models an unset/empty `RAMPNOW_WEBHOOK_SECRET`;
`signature = none` a missing/empty header. -/
def rampnowVerifyWebhookSignature (hmacHex : String → String → String)
    (nodeEnv : String) (webhookSecret : Option String)
    (rawBody : String) (signature : Option String) : Bool :=
  match signature, webhookSecret with
  | some sig, some secret =>
    sig.toLower = (hmacHex secret rawBody).toLower
  | _, _ => nodeEnv = "development"

/-- `prisma.onrampTransaction.findFirst({where:{circleTransferId}})`. -/
def findOnrampTxBySessionId (st : LedgerState) (sessionId : String) :
    Option OnrampTx :=
  st.onrampTransactions.find? fun t => t.circleTransferId = some sessionId

/-- `prisma.onrampTransaction.update({where:{id}})`. -/
def updateOnrampTx (st : LedgerState) (tid : Nat) (f : OnrampTx → OnrampTx) :
    LedgerState :=
  { st with onrampTransactions :=
      st.onrampTransactions.map fun t => if t.id = tid then f t else t }

/-- The body of an inbound Rampnow webhook after field extraction:
`sessionId = data?.id || data?.sessionId`, `status = data?.status`,
`cryptoAmount = data?.cryptoAmount || data?.amount` (the USDC amount
actually received, when present). -/
structure RampnowEvent where
  sessionId : Option String
  status : Option String
  cryptoAmount : Option ℚ
deriving DecidableEq, Repr

/-- `RampnowWebhookController.handle`: verify the signature (401 on
failure, no mutation); 400 when the session id is missing; acknowledge
with 200 and no mutation when no onramp transaction matches; otherwise
record the provider status and history, and on `completed` credit the
target wallet — directly for a USDC wallet, otherwise converted through
`getRate USDC targetCurrency` — then mark the transaction COMPLETED with
the received USDC amount; on `failed` mark it FAILED.  `getRate` stands
for the awaited `ExchangeRateService.getExchangeRate`. -/
def rampnowHandle (st : LedgerState) (hmacHex : String → String → String)
    (nodeEnv : String) (webhookSecret : Option String) (rawBody : String)
    (signature : Option String) (event : RampnowEvent)
    (getRate : String → String → ℚ) : LedgerState × Nat :=
  if ¬ rampnowVerifyWebhookSignature hmacHex nodeEnv webhookSecret rawBody
      signature then
    (st, 401)
  else
    match event.sessionId with
    | none => (st, 400)
    | some sessionId =>
      match findOnrampTxBySessionId st sessionId with
      | none => (st, 200)
      | some tx =>
        match event.status with
        | none => (st, 200)
        | some status =>
          let st1 := updateOnrampTx st tx.id fun t =>
            { t with circleStatus := some status }
          let st2 : LedgerState :=
            { st1 with onrampHistory := st1.onrampHistory ++
                [⟨tx.id,
                  if status = "completed" then .COMPLETED
                  else if status = "failed" then .FAILED
                  else .PROCESSING,
                  "Rampnow status"⟩] }
          if status = "completed" then
            match findWalletById st2 tx.walletId with
            | none => (st2, 200)
            | some targetWallet =>
              let usdcAmountReceived := event.cryptoAmount.getD tx.usdcAmount
              let st3 :=
                if targetWallet.currency = "USDC" then
                  updateWallet st2 targetWallet.id fun w =>
                    { w with balance := w.balance + usdcAmountReceived
                             availableBalance :=
                               w.availableBalance + usdcAmountReceived }
                else
                  let usdcToTargetRate := getRate "USDC" targetWallet.currency
                  let targetAmount := usdcAmountReceived * usdcToTargetRate
                  updateWallet st2 targetWallet.id fun w =>
                    { w with balance := w.balance + targetAmount
                             availableBalance :=
                               w.availableBalance + targetAmount }
              let st4 := updateOnrampTx st3 tx.id fun t =>
                { t with status := .COMPLETED
                         completedAtSet := true
                         usdcAmount := usdcAmountReceived }
              (st4, 200)
          else if status = "failed" then
            (updateOnrampTx st2 tx.id fun t => { t with status := .FAILED },
             200)
          else
            (st2, 200)

/-! ## `ExchangeRateService.getExchangeRate` -/

/-- A row of the `exchange_rates` cache table. -/
structure RateEntry where
  fromCurrency : String
  toCurrency : String
  rate : ℚ
  /-- Milliseconds since epoch, as stored by Prisma. -/
  timestamp : ℤ
deriving DecidableEq, Repr

/-- `CACHE_DURATION = 60 * 60 * 1000` (one hour in milliseconds). -/
def CACHE_DURATION : ℤ := 60 * 60 * 1000

/-- The `prisma.exchangeRate.findFirst` lookup inside `getExchangeRate`:
first entry for the pair whose `timestamp >= now - CACHE_DURATION`. -/
def findCachedRate (cache : List RateEntry) (now : ℤ)
    (fromCurrency toCurrency : String) : Option RateEntry :=
  cache.find? fun e =>
    e.fromCurrency = fromCurrency && e.toCurrency = toCurrency &&
      now - CACHE_DURATION ≤ e.timestamp

/-- The quote table returned by `fetchLatestRates('USD')`
(`rates[c]` = units of `c` per 1 USD), `none` when the API call failed. -/
def lookupRate (rates : List (String × ℚ)) (c : String) : Option ℚ :=
  (rates.find? fun p => p.1 = c).map Prod.snd

/-- `ExchangeRateService.getExchangeRate(fromCurrency, toCurrency)`:
1 for a same-currency pair; otherwise the fresh cached rate when one
exists; otherwise — when the USD quote table is available and both
quotes are truthy (present and nonzero) — the composition
`rates[to] / rates[from]` through USD; otherwise the fallback 1. -/
def getExchangeRate (cache : List RateEntry) (now : ℤ)
    (apiRates : Option (List (String × ℚ)))
    (fromCurrency toCurrency : String) : ℚ :=
  if fromCurrency = toCurrency then 1
  else
    match findCachedRate cache now fromCurrency toCurrency with
    | some cachedRate => cachedRate.rate
    | none =>
      match apiRates with
      | none => 1
      | some rates =>
        match lookupRate rates fromCurrency, lookupRate rates toCurrency with
        | some fromRate, some toRate =>
          -- JS truthiness: a present-but-zero quote is falsy
          if fromRate ≠ 0 ∧ toRate ≠ 0 then toRate / fromRate else 1
        | _, _ => 1

/-! ## The step relation of the core operations

One step is one committed execution of a core operation, exactly as the
source performs it: a `createTransfer` request (with its optional gateway
hand-off; the route schema `schemas.createTransfer` requires
`Joi.number().positive()`, hence `0 < amount`), a Circle webhook event
handler, a status update, or an `addFunds` deposit.  Failed validations
are steps that leave the state unchanged. -/
inductive Step : LedgerState → LedgerState → Prop where
  | reserve (st : LedgerState) (userId : Nat) (sourceWallet : String)
      (amount rate : ℚ) (hasCircleCustomer : Bool) (gateway : Option String)
      (hamount : 0 < amount) :
      Step st (createTransferFull st userId sourceWallet amount rate
        hasCircleCustomer gateway).1
  | createdWebhook (st : LedgerState) (tid : String) :
      Step st (handleTransactionCreated st tid)
  | confirmedWebhook (st : LedgerState) (tid : String) :
      Step st (handleTransactionConfirmed st tid)
  | completedWebhook (st : LedgerState) (tid : String) :
      Step st (handleTransactionCompleted st tid)
  | failedWebhook (st : LedgerState) (tid : String) :
      Step st (handleTransactionFailed st tid)
  | statusUpdate (st : LedgerState) (userId txId : Nat)
      (newStatus : TxStatus) (message : String) :
      Step st (updateTransactionStatus st userId txId newStatus message).1
  | deposit (st : LedgerState) (userId : Nat) (currency : String)
      (amount : ℚ) :
      Step st (addFunds st userId currency amount).1

/-- Reflexive-transitive closure of `Step`: the reachable states. -/
inductive Reaches : LedgerState → LedgerState → Prop where
  | refl (st : LedgerState) : Reaches st st
  | tail {st1 st2 st3 : LedgerState} (h : Reaches st1 st2)
      (hs : Step st2 st3) : Reaches st1 st3

/-! ## Disciplined steps

The code applies terminal transitions unconditionally (see the C2/C5
analyses below).  `DStep` is the same set of operations restricted to the
discipline the spec demands: a completion/failure/status update is only
applied while the targeted transaction is still live (PENDING or
PROCESSING), i.e. each transaction is settled at most once. -/

/-- The contribution of one transaction row to the funds that should be
held on wallet `wid`: `amount + fee` while the transaction is in-flight
(PENDING or PROCESSING), else nothing. -/
def txReserve (wid : Nat) (t : Transaction) : ℚ :=
  if t.walletId = wid ∧ (t.status = .PENDING ∨ t.status = .PROCESSING) then
    t.amount + t.fee
  else 0

/-- Total in-flight reservations against wallet `wid`. -/
def reservedTotal (txs : List Transaction) (wid : Nat) : ℚ :=
  (txs.map (txReserve wid)).sum

/-- Well-formedness of a ledger state: primary keys are unique and fresh,
monetary fields of transactions are nonnegative, available balances are
nonnegative, and each wallet's reserved balance covers the total of its
in-flight reservations. -/
def Sound (st : LedgerState) : Prop :=
  (st.wallets.map Wallet.id).Nodup ∧
  (st.transactions.map Transaction.id).Nodup ∧
  (∀ t ∈ st.transactions, t.id < st.nextTxId) ∧
  (∀ t ∈ st.transactions, 0 ≤ t.amount ∧ 0 ≤ t.fee) ∧
  (∀ w ∈ st.wallets, 0 ≤ w.availableBalance) ∧
  (∀ w ∈ st.wallets, reservedTotal st.transactions w.id ≤ w.reservedBalance)

/-- A transaction status that is not terminal. -/
def TxStatus.live (s : TxStatus) : Prop :=
  s = .PENDING ∨ s = .PROCESSING

/-- The core operations under the single-settlement discipline: terminal
transitions are only applied to transactions that are still live. -/
inductive DStep : LedgerState → LedgerState → Prop where
  | reserve (st : LedgerState) (userId : Nat) (sourceWallet : String)
      (amount rate : ℚ) (hasCircleCustomer : Bool) (gateway : Option String)
      (hamount : 0 < amount) :
      DStep st (createTransferFull st userId sourceWallet amount rate
        hasCircleCustomer gateway).1
  | createdWebhook (st : LedgerState) (tid : String) :
      DStep st (handleTransactionCreated st tid)
  | confirmedWebhook (st : LedgerState) (tid : String) :
      DStep st (handleTransactionConfirmed st tid)
  | completedWebhook (st : LedgerState) (tid : String)
      (hlive : ∀ tx, findTxByCircleId st tid = some tx → tx.status.live) :
      DStep st (handleTransactionCompleted st tid)
  | failedWebhook (st : LedgerState) (tid : String)
      (hlive : ∀ tx, findTxByCircleId st tid = some tx → tx.status.live) :
      DStep st (handleTransactionFailed st tid)
  | statusUpdate (st : LedgerState) (userId txId : Nat)
      (newStatus : TxStatus) (message : String)
      (hlive : ∀ tx,
        st.transactions.find? (fun t => t.id = txId && t.userId = userId)
          = some tx → tx.status.live) :
      DStep st (updateTransactionStatus st userId txId newStatus message).1
  | deposit (st : LedgerState) (userId : Nat) (currency : String)
      (amount : ℚ) :
      DStep st (addFunds st userId currency amount).1

/-- Reflexive-transitive closure of `DStep`. -/
inductive DReaches : LedgerState → LedgerState → Prop where
  | refl (st : LedgerState) : DReaches st st
  | tail {st1 st2 st3 : LedgerState} (h : DReaches st1 st2)
      (hs : DStep st2 st3) : DReaches st1 st3

/-! ## Concrete fixture states

Small hand-written database states used to exercise the operations on
explicit inputs.  Fee arithmetic: `400 * 0.015 = 6`, so a transfer of 400
reserves `406`. -/

/-- A freshly created USD wallet (creation is at zero balances). -/
def zeroWallet : Wallet := ⟨1, 1, "USD", 0, 0, 0, true⟩

/-- A wallet holding 1000 settled and spendable USD. -/
def wallet1000 : Wallet := ⟨1, 1, "USD", 1000, 1000, 0, true⟩

/-- A wallet with 406 of its 1000 settled USD reserved. -/
def walletReserved : Wallet := ⟨1, 1, "USD", 1000, 594, 406, true⟩

/-- A PENDING send of 400 USD (fee 6) handed to the gateway as `ct1`. -/
def pendingTx : Transaction :=
  ⟨0, 1, 1, .TRANSFER_SEND, .PENDING, 400, "USD", 6, some 1, some "ct1",
    some "GATEWAY_PROCESSING", false⟩

/-- State just before the first `completed` webhook for `ct1` arrives. -/
def stPending : LedgerState := ⟨[walletReserved], [pendingTx], [], [], [], 1⟩

/-- `stPending` after one delivery of the `completed` webhook for `ct1`. -/
def stCompletedOnce : LedgerState := handleTransactionCompleted stPending "ct1"

/-- `stCompletedOnce` after a second delivery of the same webhook. -/
def stCompletedTwice : LedgerState := handleTransactionCompleted stCompletedOnce "ct1"

/-- The COMPLETED transaction as stored after the first delivery. -/
def completedTx : Transaction :=
  ⟨0, 1, 1, .TRANSFER_SEND, .COMPLETED, 400, "USD", 6, some 1, some "ct1",
    some "COMPLETED", true⟩

/-- A settled state: the send of 400 completed once, 594 USD left. -/
def stSettled : LedgerState :=
  ⟨[⟨1, 1, "USD", 594, 594, 0, true⟩], [completedTx], [], [], [], 1⟩

/-- A fresh ledger with one zero wallet: start of the C6 scenario. -/
def c6s0 : LedgerState := ⟨[zeroWallet], [], [], [], [], 0⟩

/-- C6 scenario after depositing 1000 USD. -/
def c6s1 : LedgerState := (addFunds c6s0 1 "USD" 1000).1

/-- Double-settlement scenario, start: one wallet holding 1000 USD. -/
def cxs0 : LedgerState := ⟨[wallet1000], [], [], [], [], 0⟩

/-- Double-settlement scenario after reserving a transfer of 400 USD (fee 6). -/
def cxs1 : LedgerState := (createTransferFull cxs0 1 "USD" 400 1 false none).1

/-- Double-settlement scenario after marking the transfer COMPLETED once. -/
def cxs2 : LedgerState := (updateTransactionStatus cxs1 1 0 .COMPLETED "done").1

/-- Double-settlement scenario after marking the transfer COMPLETED again. -/
def cxs3 : LedgerState := (updateTransactionStatus cxs2 1 0 .COMPLETED "done").1

/-! ## The accounting equation `balance = availableBalance + reservedBalance` -/

/-- The per-wallet accounting equation of the spec. -/
def BalancedW (w : Wallet) : Prop :=
  w.balance = w.availableBalance + w.reservedBalance

instance : DecidablePred BalancedW := fun w =>
  inferInstanceAs (Decidable (w.balance = _))

/-- Every wallet in the state satisfies the accounting equation. -/
def WalletsBalanced (st : LedgerState) : Prop :=
  ∀ w ∈ st.wallets, BalancedW w

instance (st : LedgerState) : Decidable (WalletsBalanced st) :=
  List.decidableBAll _ _

lemma walletsBalanced_of_eq {st st' : LedgerState}
    (h : st'.wallets = st.wallets) (hb : WalletsBalanced st) :
    WalletsBalanced st' := by
  intro w hw
  exact hb w (h ▸ hw)

lemma walletsBalanced_updateWallet {st : LedgerState} {wid : Nat}
    {f : Wallet → Wallet} (hf : ∀ w, BalancedW w → BalancedW (f w))
    (hb : WalletsBalanced st) : WalletsBalanced (updateWallet st wid f) := by
  intro w hw
  simp only [updateWallet, List.mem_map] at hw
  obtain ⟨w0, hw0, heq⟩ := hw
  by_cases hid : w0.id = wid
  · simp only [hid, if_pos rfl] at heq
    exact heq ▸ hf w0 (hb w0 hw0)
  · simp only [if_neg hid] at heq
    exact heq ▸ hb w0 hw0

lemma walletsBalanced_createTransfer {st : LedgerState} {userId : Nat}
    {cur : String} {amount rate : ℚ} (hb : WalletsBalanced st) :
    WalletsBalanced (createTransfer st userId cur amount rate).1 := by
  unfold createTransfer
  cases hfind : findWallet st userId cur with
  | none => exact hb
  | some wallet =>
    simp only
    split
    · exact hb
    · apply walletsBalanced_updateWallet
      · intro w hw
        simp only [BalancedW] at hw ⊢
        rw [hw]; ring
      · exact walletsBalanced_of_eq rfl hb

lemma walletsBalanced_createTransferFull {st : LedgerState} {userId : Nat}
    {cur : String} {amount rate : ℚ} {hasCircle : Bool}
    {gateway : Option String} (hb : WalletsBalanced st) :
    WalletsBalanced (createTransferFull st userId cur amount rate hasCircle
      gateway).1 := by
  unfold createTransferFull
  have h1 : WalletsBalanced (createTransfer st userId cur amount rate).1 :=
    walletsBalanced_createTransfer hb
  cases hct : createTransfer st userId cur amount rate with
  | mk st1 r =>
    rw [hct] at h1
    cases r with
    | created txId =>
      simp only
      split
      · cases gateway with
        | some gid => exact walletsBalanced_of_eq rfl h1
        | none => exact h1
      · exact h1
    | walletNotFound => exact h1
    | insufficientFunds => exact h1
    | serverError => exact h1

lemma walletsBalanced_handleTransactionCreated {st : LedgerState}
    {tid : String} (hb : WalletsBalanced st) :
    WalletsBalanced (handleTransactionCreated st tid) := by
  unfold handleTransactionCreated
  cases findTxByCircleId st tid with
  | none => exact hb
  | some tx => exact walletsBalanced_of_eq rfl hb

lemma walletsBalanced_handleTransactionConfirmed {st : LedgerState}
    {tid : String} (hb : WalletsBalanced st) :
    WalletsBalanced (handleTransactionConfirmed st tid) := by
  unfold handleTransactionConfirmed
  cases findTxByCircleId st tid with
  | none => exact hb
  | some tx => exact walletsBalanced_of_eq rfl hb

lemma walletsBalanced_handleTransactionCompleted {st : LedgerState}
    {tid : String} (hb : WalletsBalanced st) :
    WalletsBalanced (handleTransactionCompleted st tid) := by
  unfold handleTransactionCompleted
  cases findTxByCircleId st tid with
  | none => exact hb
  | some tx =>
    simp only
    cases hfw : findWalletById
        (appendHistory (updateTx st tx.id _) _) tx.walletId with
    | none => exact walletsBalanced_of_eq rfl hb
    | some wallet =>
      apply walletsBalanced_updateWallet
      · intro w hw
        simp only [BalancedW] at hw ⊢
        rw [hw]; ring
      · exact walletsBalanced_of_eq rfl hb

lemma walletsBalanced_handleTransactionFailed {st : LedgerState}
    {tid : String} (hb : WalletsBalanced st) :
    WalletsBalanced (handleTransactionFailed st tid) := by
  unfold handleTransactionFailed
  cases findTxByCircleId st tid with
  | none => exact hb
  | some tx =>
    simp only
    cases hfw : findWalletById
        (appendHistory (updateTx st tx.id _) _) tx.walletId with
    | none => exact walletsBalanced_of_eq rfl hb
    | some wallet =>
      apply walletsBalanced_updateWallet
      · intro w hw
        simp only [BalancedW] at hw ⊢
        rw [hw]; ring
      · exact walletsBalanced_of_eq rfl hb

lemma walletsBalanced_updateTransactionStatus {st : LedgerState}
    {userId txId : Nat} {newStatus : TxStatus} {message : String}
    (hb : WalletsBalanced st) :
    WalletsBalanced (updateTransactionStatus st userId txId newStatus
      message).1 := by
  unfold updateTransactionStatus
  cases st.transactions.find? (fun t => t.id = txId && t.userId = userId) with
  | none => exact hb
  | some tx =>
    simp only
    split
    · cases hfw : findWalletById
          (appendHistory (updateTx st tx.id _) _) tx.walletId with
      | none => exact walletsBalanced_of_eq rfl hb
      | some wallet =>
        apply walletsBalanced_updateWallet
        · intro w hw
          simp only [BalancedW] at hw ⊢
          rw [hw]; ring
        · exact walletsBalanced_of_eq rfl hb
    · exact walletsBalanced_of_eq rfl hb

lemma walletsBalanced_addFunds {st : LedgerState} {userId : Nat}
    {currency : String} {amount : ℚ} (hb : WalletsBalanced st) :
    WalletsBalanced (addFunds st userId currency amount).1 := by
  unfold addFunds
  split
  · exact hb
  · cases findWallet st userId currency with
    | none => exact hb
    | some wallet =>
      apply walletsBalanced_of_eq rfl
      apply walletsBalanced_updateWallet
      · intro w hw
        simp only [BalancedW] at hw ⊢
        rw [hw]; ring
      · exact hb

/-- Claim C1: the accounting equation
`balance = availableBalance + reservedBalance` holds for every wallet after
every core operation (a committed `createTransfer` reservation, a
transaction completion, a transaction failure, a deposit via `addFunds`,
and the remaining webhook/status-update mutations), provided it held
before the operation. -/
theorem balance_equation_preserved {st st' : LedgerState}
    (hstep : Step st st') (hb : WalletsBalanced st) : WalletsBalanced st' := by
  cases hstep with
  | reserve _ _ _ _ _ _ _ => exact walletsBalanced_createTransferFull hb
  | createdWebhook _ => exact walletsBalanced_handleTransactionCreated hb
  | confirmedWebhook _ => exact walletsBalanced_handleTransactionConfirmed hb
  | completedWebhook _ => exact walletsBalanced_handleTransactionCompleted hb
  | failedWebhook _ => exact walletsBalanced_handleTransactionFailed hb
  | statusUpdate _ _ _ _ => exact walletsBalanced_updateTransactionStatus hb
  | deposit _ _ _ => exact walletsBalanced_addFunds hb

/-- Witness for C1: the fresh zero wallet satisfies the equation, and it
still does after a concrete 1000 USD deposit. -/
theorem balance_equation_preserved_witness :
    WalletsBalanced c6s0 ∧ WalletsBalanced c6s1 := by
  have h0 : WalletsBalanced c6s0 := by
    simp [WalletsBalanced, BalancedW, c6s0, zeroWallet]
  exact ⟨h0, balance_equation_preserved (Step.deposit c6s0 1 "USD" 1000) h0⟩

/-- Claim C4: for `createTransfer` with `amount > 0` and an existing active
source wallet, the fee is `amount * 0.015` and the total debit is
`amount + fee`; when `availableBalance < totalDebit` the call fails with
insufficient funds and mutates nothing; otherwise it returns 201 with a
new PENDING transaction storing the fee and exchange-rate snapshot, moves
`totalDebit` from `availableBalance` to `reservedBalance` (balance
untouched), and appends a PENDING history row. -/
theorem createTransfer_spec (st : LedgerState) (userId : Nat) (cur : String)
    (amount rate : ℚ) (wallet : Wallet)
    (hamount : 0 < amount)
    (hw : findWallet st userId cur = some wallet) :
    amount * feePercentage = amount * (15 / 1000) ∧
    (wallet.availableBalance < amount + amount * feePercentage →
      createTransfer st userId cur amount rate = (st, .insufficientFunds)) ∧
    (amount + amount * feePercentage ≤ wallet.availableBalance →
      (createTransfer st userId cur amount rate).2 = .created st.nextTxId ∧
      (createTransfer st userId cur amount rate).1.transactions =
        st.transactions ++
          [{ id := st.nextTxId, userId := userId, walletId := wallet.id,
             type := .TRANSFER_SEND, status := .PENDING, amount := amount,
             currency := cur, fee := amount * feePercentage,
             exchangeRate := some rate, circleTransferId := none,
             circleStatus := none, completedAtSet := false }] ∧
      (createTransfer st userId cur amount rate).1.wallets =
        st.wallets.map (fun w =>
          if w.id = wallet.id then
            { w with
                availableBalance :=
                  w.availableBalance - (amount + amount * feePercentage)
                reservedBalance :=
                  w.reservedBalance + (amount + amount * feePercentage) }
          else w) ∧
      (createTransfer st userId cur amount rate).1.history =
        st.history ++ [⟨st.nextTxId, .PENDING,
          "Transfer initiated - validating recipient details"⟩]) := by
  refine ⟨rfl, ?_, ?_⟩
  · intro hlt
    simp only [createTransfer, hw]
    rw [if_pos hlt]
  · intro hle
    simp only [createTransfer, hw]
    rw [if_neg (not_lt.2 hle)]
    exact ⟨rfl, rfl, rfl, rfl⟩

/-- Witness for C4: a wallet with 1000 available USD accepts a transfer of
400 (fee 6, total 406). -/
theorem createTransfer_spec_witness :
    findWallet ⟨[wallet1000], [], [], [], [], 0⟩ 1 "USD" = some wallet1000 ∧
    (createTransfer ⟨[wallet1000], [], [], [], [], 0⟩ 1 "USD" 400 1).2 =
      .created 0 := by
  have hw :
      findWallet ⟨[wallet1000], [], [], [], [], 0⟩ 1 "USD" = some wallet1000 := by
    simp +decide [findWallet, wallet1000]
  have h := createTransfer_spec ⟨[wallet1000], [], [], [], [], 0⟩ 1 "USD"
    400 1 wallet1000 (by norm_num) hw
  have hle : (400 : ℚ) + 400 * feePercentage ≤ wallet1000.availableBalance := by
    norm_num [feePercentage, wallet1000]
  exact ⟨hw, (h.2.2 hle).1⟩

/-- Claim C10: `addFunds` with a missing currency or non-positive amount
is rejected with a 400 and mutates nothing; with a positive amount on an
existing active wallet it increments `balance` and `availableBalance` by
exactly the amount (reservedBalance untouched) and records a COMPLETED
DEPOSIT transaction with fee 0. -/
theorem addFunds_spec (st : LedgerState) (userId : Nat) (currency : String)
    (amount : ℚ) :
    (currency = "" ∨ amount ≤ 0 →
      addFunds st userId currency amount = (st, .badRequest)) ∧
    (¬ (currency = "" ∨ amount ≤ 0) →
      ∀ wallet, findWallet st userId currency = some wallet →
        (addFunds st userId currency amount).2 = .ok ∧
        (addFunds st userId currency amount).1.wallets =
          st.wallets.map (fun w =>
            if w.id = wallet.id then
              { w with balance := w.balance + amount
                       availableBalance := w.availableBalance + amount }
            else w) ∧
        (addFunds st userId currency amount).1.transactions =
          st.transactions ++
            [{ id := st.nextTxId, userId := userId, walletId := wallet.id,
               type := .DEPOSIT, status := .COMPLETED, amount := amount,
               currency := currency, fee := 0, exchangeRate := none,
               circleTransferId := none, circleStatus := none,
               completedAtSet := false }]) := by
  constructor
  · intro hbad
    simp only [addFunds]
    rw [if_pos hbad]
  · intro hok wallet hw
    simp only [addFunds, hw]
    rw [if_neg hok]
    exact ⟨rfl, rfl, rfl⟩

/-- Witness for C10: rejecting a zero deposit, and depositing 1000 USD
into the fresh zero wallet. -/
theorem addFunds_spec_witness :
    addFunds c6s0 1 "USD" 0 = (c6s0, .badRequest) ∧
    (addFunds c6s0 1 "USD" 1000).2 = .ok := by
  have h0 := addFunds_spec c6s0 1 "USD" 0
  have h1 := addFunds_spec c6s0 1 "USD" 1000
  have hw : findWallet c6s0 1 "USD" = some zeroWallet := by
    simp +decide [findWallet, c6s0, zeroWallet]
  refine ⟨h0.1 (Or.inr le_rfl), ?_⟩
  have hok : ¬ ("USD" = "" ∨ (1000 : ℚ) ≤ 0) := by
    push_neg
    exact ⟨by simp, by norm_num⟩
  exact (h1.2 hok zeroWallet hw).1

lemma dispatchCircleEvent_noop {st : LedgerState} {event : CircleEvent}
    (hc : ∀ tid, event.dataId = some tid → findTxByCircleId st tid = none) :
    dispatchCircleEvent st event = st := by
  unfold dispatchCircleEvent
  cases hdata : event.dataId with
  | none => rfl
  | some tid =>
    have hn := hc tid hdata
    split_ifs <;>
      simp [handleTransactionCreated, handleTransactionConfirmed,
        handleTransactionCompleted, handleTransactionFailed, hn]

/-- Claim C8: a webhook event whose external reference id matches no
stored transaction is acknowledged with 200 and causes no mutation at
all, both for the Circle dispatcher (any event type) and for the Rampnow
handler. -/
theorem unknown_webhook_event_is_noop (st : LedgerState)
    (nodeEnv payload signature : String) (event : CircleEvent)
    (hmacHex : String → String → String) (webhookSecret : Option String)
    (rawBody : String) (sig : Option String) (rEvent : RampnowEvent)
    (getRate : String → String → ℚ) (sid : String)
    (hcircle : ∀ tid, event.dataId = some tid → findTxByCircleId st tid = none)
    (hsid : rEvent.sessionId = some sid)
    (hmiss : findOnrampTxBySessionId st sid = none)
    (hver : rampnowVerifyWebhookSignature hmacHex nodeEnv webhookSecret
      rawBody sig = true) :
    handleCircleWebhook st nodeEnv payload signature event = (st, 200) ∧
    rampnowHandle st hmacHex nodeEnv webhookSecret rawBody sig rEvent
      getRate = (st, 200) := by
  constructor
  · unfold handleCircleWebhook
    have hv : circleVerifyWebhookSignature nodeEnv payload signature = true := by
      simp [circleVerifyWebhookSignature]
    rw [hv]
    simp [dispatchCircleEvent_noop hcircle]
  · unfold rampnowHandle
    rw [hver]
    simp only [not_true, if_false, Bool.not_true, reduceIte]
    rw [hsid]
    simp only [hmiss]

/-- Witness for C8: a `completed` event for the unknown transfer id `zzz`
against the fixture state, and a Rampnow event for an unknown session. -/
theorem unknown_webhook_event_is_noop_witness :
    handleCircleWebhook stPending "production" "rawbody" "sig"
      ⟨"transactions.completed", some "zzz"⟩ = (stPending, 200) ∧
    rampnowHandle stPending (fun _ _ => "") "production" (some "secret")
      "rawbody" (some "") ⟨some "zzz", some "completed", none⟩
      (fun _ _ => 1) = (stPending, 200) := by
  apply unknown_webhook_event_is_noop stPending "production" "rawbody" "sig"
    ⟨"transactions.completed", some "zzz"⟩ (fun _ _ => "") (some "secret")
    "rawbody" (some "") ⟨some "zzz", some "completed", none⟩ (fun _ _ => 1)
    "zzz"
  · intro tid htid
    simp only [Option.some.injEq] at htid
    subst htid
    simp +decide [findTxByCircleId, stPending, pendingTx]
  · rfl
  · rfl
  · simp [rampnowVerifyWebhookSignature]

/-- Claim C9: `getExchangeRate` returns exactly 1 on a same-currency pair;
and for distinct currencies whose USD quotes are available (and with a
cache whose entries all come from the USD quote table, as `cacheRates`
writes them), it returns `rate(USD,to) / rate(USD,from)`. -/
theorem getExchangeRate_spec (cache : List RateEntry) (now : ℤ)
    (rates : List (String × ℚ)) (A B : String) (fa fb : ℚ)
    (husd : lookupRate rates "USD" = some 1)
    (hcache : ∀ e ∈ cache, e.fromCurrency = "USD" ∧
        lookupRate rates e.toCurrency = some e.rate)
    (hA : lookupRate rates A = some fa) (hB : lookupRate rates B = some fb)
    (hfa : fa ≠ 0) (hfb : fb ≠ 0) :
    (∀ c, getExchangeRate cache now (some rates) c c = 1) ∧
    (A ≠ B → getExchangeRate cache now (some rates) A B = fb / fa) := by
  constructor
  · intro c
    simp [getExchangeRate]
  · intro hne
    unfold getExchangeRate
    rw [if_neg hne]
    cases hfc : findCachedRate cache now A B with
    | none =>
      simp only [hA, hB]
      rw [if_pos ⟨hfa, hfb⟩]
    | some e =>
      have hpred := List.find?_some hfc
      have hmem := List.mem_of_find?_eq_some hfc
      simp only [Bool.and_eq_true, decide_eq_true_eq] at hpred
      obtain ⟨⟨hfrom, hto⟩, -⟩ := hpred
      obtain ⟨husd', hrate⟩ := hcache e hmem
      have hAUSD : A = "USD" := hfrom ▸ husd'
      have hA' : fa = 1 := by
        rw [hAUSD, husd] at hA
        exact (Option.some_inj.mp hA).symm
      have hB' : e.rate = fb := by
        rw [hto, hB] at hrate
        exact (Option.some_inj.mp hrate).symm
      simp [hA', hB', div_one]

/-- Witness for C9: with the USD quote table `USD ↦ 1, NGN ↦ 100000/67`
(i.e. 1 USD = 100000/67 NGN), the NGN→USD rate is `67/100000 = 0.00067`,
and converting 1,000,000 NGN at that rate yields exactly 670 USD. -/
theorem getExchangeRate_spec_witness :
    getExchangeRate [] 0 (some [("USD", 1), ("NGN", 100000 / 67)])
      "USD" "USD" = 1 ∧
    getExchangeRate [] 0 (some [("USD", 1), ("NGN", 100000 / 67)])
      "NGN" "USD" = 1 / (100000 / 67) ∧
    (1 : ℚ) / (100000 / 67) = 67 / 100000 ∧
    (1000000 : ℚ) * (67 / 100000) = 670 := by
  have h := getExchangeRate_spec [] 0 [("USD", 1), ("NGN", 100000 / 67)]
    "NGN" "USD" (100000 / 67) 1 (by simp +decide [lookupRate])
    (by simp) (by simp +decide [lookupRate]) (by simp +decide [lookupRate])
    (by norm_num) (by norm_num)
  refine ⟨h.1 "USD", h.2 (by simp), by norm_num, by norm_num⟩

/-! ## Refutations: the code paths that violate the spec -/

/-- Claim C2 (refuted by the code): re-delivering a `completed` webhook for
the already-COMPLETED transaction `ct1` is not a no-op — the second
delivery decrements `balance` and `reservedBalance` by `amount + fee`
again, driving `reservedBalance` to −406. -/
theorem completed_webhook_not_idempotent :
    ((stCompletedOnce.transactions.find? fun t => t.id = 0).map
        Transaction.status = some .COMPLETED) ∧
    (findWalletById stCompletedOnce 1).map
        (fun w => (w.balance, w.availableBalance, w.reservedBalance)) =
      some (594, 594, 0) ∧
    (findWalletById stCompletedTwice 1).map
        (fun w => (w.balance, w.availableBalance, w.reservedBalance)) =
      some (188, 594, -406) := by
  refine ⟨?_, ?_, ?_⟩ <;>
    · simp +decide [stCompletedOnce, stCompletedTwice, stPending,
        walletReserved, pendingTx, handleTransactionCompleted,
        findTxByCircleId, updateTx, appendHistory, findWalletById,
        updateWallet]
      try norm_num

/-- Claim C5 (refuted by the code): a `failed` webhook received after the
transaction is COMPLETED still overwrites the status to FAILED and
mutates the wallet: terminal states are not closed. -/
theorem terminal_status_not_closed :
    ((stSettled.transactions.find? fun t => t.id = 0).map Transaction.status
        = some .COMPLETED) ∧
    (((handleTransactionFailed stSettled "ct1").transactions.find?
        fun t => t.id = 0).map Transaction.status = some .FAILED) ∧
    (findWalletById (handleTransactionFailed stSettled "ct1") 1).map
        (fun w => (w.balance, w.availableBalance, w.reservedBalance)) =
      some (594, 1000, -406) := by
  refine ⟨?_, ?_, ?_⟩ <;>
    · simp +decide [stSettled, completedTx, handleTransactionFailed,
        findTxByCircleId, updateTx, appendHistory, findWalletById,
        updateWallet]
      try norm_num

/-- Claim C3 (refuted by the code): when the gateway initiation call
throws for a user with a Circle customer id, `createTransfer` answers
with the catch-all 500, and the transaction is left PENDING (not FAILED)
with the 406 still reserved — funds held with no in-flight external
operation. -/
theorem initiation_failure_leaves_funds_reserved :
    (createTransferFull ⟨[wallet1000], [], [], [], [], 0⟩ 1 "USD" 400 1
        true none).2 = .serverError ∧
    (((createTransferFull ⟨[wallet1000], [], [], [], [], 0⟩ 1 "USD" 400 1
          true none).1.transactions.find? fun t => t.id = 0).map
        Transaction.status = some .PENDING) ∧
    (findWalletById (createTransferFull ⟨[wallet1000], [], [], [], [], 0⟩
          1 "USD" 400 1 true none).1 1).map
        (fun w => (w.availableBalance, w.reservedBalance)) =
      some (594, 406) := by
  refine ⟨?_, ?_, ?_⟩ <;>
    · simp +decide [createTransferFull, createTransfer, findWallet,
        wallet1000, feePercentage, updateWallet, updateTx, appendHistory,
        findWalletById]
      try norm_num

/-- Claim C6 (refuted as stated): the state `cxs3` is reachable from a
well-formed wallet of 1000 USD by the code's own operations (reserve a
400 USD transfer, then apply the unguarded COMPLETED transition twice —
the re-delivery the code does not fend off), yet its reserved balance is
−406 < 0. -/
theorem reserved_balance_can_go_negative :
    Reaches cxs0 cxs3 ∧
    (findWalletById cxs3 1).map Wallet.reservedBalance = some (-406) ∧
    ¬ (0 ≤ (-406 : ℚ)) := by
  refine ⟨?_, ?_, by norm_num⟩
  · exact Reaches.tail (Reaches.tail (Reaches.tail
      (Reaches.refl cxs0)
      (Step.reserve cxs0 1 "USD" 400 1 false none (by norm_num)))
      (Step.statusUpdate cxs1 1 0 .COMPLETED "done"))
      (Step.statusUpdate cxs2 1 0 .COMPLETED "done")
  · have hno : ¬ ((1000 : ℚ) < 400 + 400 * feePercentage) := by
      norm_num [feePercentage]
    simp +decide [cxs3, cxs2, cxs1, cxs0, createTransferFull, createTransfer,
      updateTransactionStatus, findWallet, findWalletById, updateWallet,
      updateTx, appendHistory, wallet1000, hno]
    try norm_num [feePercentage]

/-- Claim C7 (refuted by the code): `CircleService.verifyWebhookSignature`
returns `true` for every payload and signature (its body is the TODO stub
`NODE_ENV === 'development' || true`), so in production a request with a
garbage signature is not rejected and the ledger mutation is reached (the
wallet balance drops from 1000 to 594). -/
theorem webhook_signature_never_rejected :
    circleVerifyWebhookSignature "production" "rawbody" "bad-signature"
      = true ∧
    (handleCircleWebhook stPending "production" "rawbody" "bad-signature"
        ⟨"transactions.completed", some "ct1"⟩).2 = 200 ∧
    (findWalletById (handleCircleWebhook stPending "production" "rawbody"
          "bad-signature" ⟨"transactions.completed", some "ct1"⟩).1 1).map
        Wallet.balance = some 594 := by
  refine ⟨rfl, ?_, ?_⟩ <;>
    · simp +decide [handleCircleWebhook, circleVerifyWebhookSignature,
        dispatchCircleEvent, handleTransactionCompleted, findTxByCircleId,
        stPending, walletReserved, pendingTx, updateTx, appendHistory,
        findWalletById, updateWallet]
      try norm_num

/-! ## Soundness machinery for the amended nonnegativity claim -/

lemma tx_map_ite_eq_self {l : List Transaction} {i : Nat}
    {f : Transaction → Transaction} (h : ∀ t ∈ l, t.id ≠ i) :
    (l.map fun t => if t.id = i then f t else t) = l := by
  induction l with
  | nil => rfl
  | cons a l ih =>
    simp only [List.map_cons]
    rw [if_neg (h a (List.mem_cons_self a l)),
      ih fun t ht => h t (List.mem_cons_of_mem a ht)]

lemma sum_map_ite_update (g : Transaction → ℚ) {l : List Transaction}
    {i : Nat} {f : Transaction → Transaction}
    (hnd : (l.map Transaction.id).Nodup) {tx : Transaction}
    (hmem : tx ∈ l) (hid : tx.id = i) :
    ((l.map fun t => if t.id = i then f t else t).map g).sum
      = (l.map g).sum - g tx + g (f tx) := by
  induction l with
  | nil => cases hmem
  | cons a l ih =>
    rw [List.map_cons, List.nodup_cons] at hnd
    obtain ⟨hna, hndl⟩ := hnd
    rcases List.mem_cons.mp hmem with heq | hmem'
    · subst heq
      rw [List.map_cons, if_pos hid,
        tx_map_ite_eq_self (fun t ht hti => hna (by
          have heq : t.id = tx.id := by rw [hti, hid]
          exact heq ▸ List.mem_map_of_mem Transaction.id ht))]
      simp only [List.map_cons, List.sum_cons]
      ring
    · have hai : a.id ≠ i := fun he => hna (by
        have hEq : tx.id = a.id := by rw [hid, he]
        exact hEq ▸ List.mem_map_of_mem Transaction.id hmem')
      rw [List.map_cons, if_neg hai]
      simp only [List.map_cons, List.sum_cons, ih hndl hmem']
      ring

lemma map_field_ite {β : Type} (gf : Transaction → β) {l : List Transaction}
    {i : Nat} {f : Transaction → Transaction} (hf : ∀ t, gf (f t) = gf t) :
    (l.map fun t => if t.id = i then f t else t).map gf = l.map gf := by
  rw [List.map_map]
  refine List.map_congr_left fun a _ => ?_
  simp only [Function.comp_apply]
  by_cases h : a.id = i
  · rw [if_pos h, hf]
  · rw [if_neg h]

lemma wallet_map_field_ite {β : Type} (gf : Wallet → β) {l : List Wallet}
    {i : Nat} {f : Wallet → Wallet} (hf : ∀ w, gf (f w) = gf w) :
    (l.map fun w => if w.id = i then f w else w).map gf = l.map gf := by
  rw [List.map_map]
  refine List.map_congr_left fun a _ => ?_
  simp only [Function.comp_apply]
  by_cases h : a.id = i
  · rw [if_pos h, hf]
  · rw [if_neg h]

lemma mem_map_ite_wallet {l : List Wallet} {i : Nat} {f : Wallet → Wallet}
    {x : Wallet} (hx : x ∈ l.map fun w => if w.id = i then f w else w) :
    (∃ w, w ∈ l ∧ w.id = i ∧ x = f w) ∨ (x ∈ l ∧ x.id ≠ i) := by
  obtain ⟨w, hw, hxe⟩ := List.mem_map.mp hx
  by_cases h : w.id = i
  · exact Or.inl ⟨w, hw, h, by rw [← hxe, if_pos h]⟩
  · refine Or.inr ⟨?_, ?_⟩ <;> rw [← hxe, if_neg h]
    exacts [hw, h]

lemma mem_map_ite_tx {l : List Transaction} {i : Nat}
    {f : Transaction → Transaction} {x : Transaction}
    (hx : x ∈ l.map fun t => if t.id = i then f t else t) :
    (∃ t, t ∈ l ∧ t.id = i ∧ x = f t) ∨ (x ∈ l ∧ x.id ≠ i) := by
  obtain ⟨t, ht, hxe⟩ := List.mem_map.mp hx
  by_cases h : t.id = i
  · exact Or.inl ⟨t, ht, h, by rw [← hxe, if_pos h]⟩
  · refine Or.inr ⟨?_, ?_⟩ <;> rw [← hxe, if_neg h]
    exacts [ht, h]

lemma reservedTotal_append (txs : List Transaction) (tx : Transaction)
    (wid : Nat) :
    reservedTotal (txs ++ [tx]) wid
      = reservedTotal txs wid + txReserve wid tx := by
  simp [reservedTotal]

lemma txReserve_nonneg (wid : Nat) {t : Transaction}
    (h : 0 ≤ t.amount ∧ 0 ≤ t.fee) : 0 ≤ txReserve wid t := by
  unfold txReserve
  split
  · linarith [h.1, h.2]
  · exact le_refl 0

lemma reservedTotal_nonneg {txs : List Transaction}
    (h : ∀ t ∈ txs, 0 ≤ t.amount ∧ 0 ≤ t.fee) (wid : Nat) :
    0 ≤ reservedTotal txs wid := by
  apply List.sum_nonneg
  intro x hx
  obtain ⟨t, ht, rfl⟩ := List.mem_map.mp hx
  exact txReserve_nonneg wid (h t ht)

lemma findWalletById_spec {st : LedgerState} {wid : Nat} {w : Wallet}
    (h : findWalletById st wid = some w) : w ∈ st.wallets ∧ w.id = wid := by
  refine ⟨List.mem_of_find?_eq_some h, ?_⟩
  have := List.find?_some h
  simpa using this

lemma findTxByCircleId_mem {st : LedgerState} {tid : String}
    {tx : Transaction} (h : findTxByCircleId st tid = some tx) :
    tx ∈ st.transactions :=
  List.mem_of_find?_eq_some h

lemma wallet_eq_of_id {l : List Wallet} (hnd : (l.map Wallet.id).Nodup)
    {w1 w2 : Wallet} (h1 : w1 ∈ l) (h2 : w2 ∈ l) (hid : w1.id = w2.id) :
    w1 = w2 :=
  List.inj_on_of_nodup_map hnd h1 h2 hid

lemma nodup_ids_append {txs : List Transaction} {tx : Transaction} {n : Nat}
    (htid : (txs.map Transaction.id).Nodup) (hbound : ∀ t ∈ txs, t.id < n)
    (hid : tx.id = n) : ((txs ++ [tx]).map Transaction.id).Nodup := by
  rw [List.map_append]
  refine List.Nodup.append htid (List.nodup_singleton _) ?_
  intro a ha hb
  obtain ⟨t, ht, rfl⟩ := List.mem_map.mp ha
  simp only [List.map_cons, List.map_nil, List.mem_singleton] at hb
  rw [hid] at hb
  exact absurd hb (Nat.ne_of_lt (hbound t ht))

lemma nodup_wallet_ids_update {l : List Wallet} {i : Nat}
    (f : Wallet → Wallet) (hf : ∀ w, (f w).id = w.id)
    (h : (l.map Wallet.id).Nodup) :
    ((l.map fun w => if w.id = i then f w else w).map Wallet.id).Nodup := by
  rw [List.map_map]
  have hcg : ∀ w ∈ l,
      (Wallet.id ∘ fun w => if w.id = i then f w else w) w = Wallet.id w := by
    intro w _
    simp only [Function.comp_apply]
    by_cases hq : w.id = i
    · rw [if_pos hq, hf]
    · rw [if_neg hq]
  rw [List.map_congr_left hcg]
  exact h

lemma nodup_tx_ids_update {l : List Transaction} {i : Nat}
    (f : Transaction → Transaction) (hf : ∀ t, (f t).id = t.id)
    (h : (l.map Transaction.id).Nodup) :
    ((l.map fun t => if t.id = i then f t else t).map Transaction.id).Nodup := by
  rw [List.map_map]
  have hcg : ∀ t ∈ l,
      (Transaction.id ∘ fun t => if t.id = i then f t else t) t
        = Transaction.id t := by
    intro t _
    simp only [Function.comp_apply]
    by_cases hq : t.id = i
    · rw [if_pos hq, hf]
    · rw [if_neg hq]
  rw [List.map_congr_left hcg]
  exact h

lemma reservedTotal_settle {txs : List Transaction} {tx : Transaction}
    {f : Transaction → Transaction}
    (hnd : (txs.map Transaction.id).Nodup) (hmem : tx ∈ txs)
    (hzero : ∀ wid, txReserve wid (f tx) = 0) (wid : Nat) :
    reservedTotal (txs.map fun t => if t.id = tx.id then f t else t) wid
      = reservedTotal txs wid - txReserve wid tx := by
  have h := sum_map_ite_update (txReserve wid) hnd hmem rfl (f := f)
  simp only [reservedTotal]
  rw [h, hzero wid]
  ring

lemma reservedTotal_update_le {txs : List Transaction} {tx : Transaction}
    {f : Transaction → Transaction}
    (hnd : (txs.map Transaction.id).Nodup) (hmem : tx ∈ txs)
    (hle : ∀ wid, txReserve wid (f tx) ≤ txReserve wid tx) (wid : Nat) :
    reservedTotal (txs.map fun t => if t.id = tx.id then f t else t) wid
      ≤ reservedTotal txs wid := by
  have h := sum_map_ite_update (txReserve wid) hnd hmem rfl (f := f)
  simp only [reservedTotal] at h ⊢
  rw [h]
  linarith [hle wid]

lemma reservedTotal_map_congr {txs : List Transaction} {i : Nat}
    {f : Transaction → Transaction}
    (hsame : ∀ wid t, txReserve wid (f t) = txReserve wid t) (wid : Nat) :
    reservedTotal (txs.map fun t => if t.id = i then f t else t) wid
      = reservedTotal txs wid := by
  simp only [reservedTotal]
  rw [map_field_ite (txReserve wid) (hsame wid)]

lemma sound_updateTx_congr {st : LedgerState} {tid : Nat}
    {f : Transaction → Transaction}
    (hid : ∀ t, (f t).id = t.id)
    (hamt : ∀ t, (f t).amount = t.amount) (hfee : ∀ t, (f t).fee = t.fee)
    (hrsv : ∀ wid t, txReserve wid (f t) = txReserve wid t)
    (hs : Sound st) : Sound (updateTx st tid f) := by
  obtain ⟨hwid, htid, hbound, hnn, hav, hres⟩ := hs
  refine ⟨hwid, ?_, ?_, ?_, hav, ?_⟩
  · exact nodup_tx_ids_update f hid htid
  · intro t ht
    rcases mem_map_ite_tx ht with ⟨t0, ht0, -, rfl⟩ | ⟨ht0, -⟩
    · rw [hid]
      exact hbound t0 ht0
    · exact hbound t ht0
  · intro t ht
    rcases mem_map_ite_tx ht with ⟨t0, ht0, -, rfl⟩ | ⟨ht0, -⟩
    · rw [hamt, hfee]
      exact hnn t0 ht0
    · exact hnn t ht0
  · intro w hw
    have heq : reservedTotal
        (st.transactions.map fun t => if t.id = tid then f t else t) w.id
        = reservedTotal st.transactions w.id :=
      reservedTotal_map_congr hrsv w.id
    have hle := hres w hw
    calc reservedTotal (updateTx st tid f).transactions w.id
        = reservedTotal st.transactions w.id := heq
      _ ≤ w.reservedBalance := hle

lemma sound_addFunds {st : LedgerState} {userId : Nat} {currency : String}
    {amount : ℚ} (hs : Sound st) :
    Sound (addFunds st userId currency amount).1 := by
  obtain ⟨hwid, htid, hbound, hnn, hav, hres⟩ := hs
  unfold addFunds
  split
  · exact ⟨hwid, htid, hbound, hnn, hav, hres⟩
  next hguard =>
    push_neg at hguard
    cases hfw : findWallet st userId currency with
    | none => exact ⟨hwid, htid, hbound, hnn, hav, hres⟩
    | some wallet =>
      have hamount : 0 < amount := hguard.2
      dsimp only [updateWallet]
      refine ⟨?_, ?_, ?_, ?_, ?_, ?_⟩
      · exact nodup_wallet_ids_update _ (fun w => rfl) hwid
      · exact nodup_ids_append htid hbound rfl
      · intro t ht
        rcases List.mem_append.mp ht with h | h
        · exact Nat.lt_succ_of_lt (hbound t h)
        · rw [List.mem_singleton.mp h]
          exact Nat.lt_succ_self _
      · intro t ht
        rcases List.mem_append.mp ht with h | h
        · exact hnn t h
        · rw [List.mem_singleton.mp h]
          exact ⟨le_of_lt hamount, le_refl 0⟩
      · intro w hw
        rcases mem_map_ite_wallet hw with ⟨w0, hw0, -, rfl⟩ | ⟨hw0, -⟩
        · have := hav w0 hw0
          show 0 ≤ w0.availableBalance + amount
          linarith
        · exact hav w hw0
      · intro w hw
        have hsum : ∀ wid, reservedTotal (st.transactions ++
            [{ id := st.nextTxId, userId := userId, walletId := wallet.id,
               type := .DEPOSIT, status := .COMPLETED, amount := amount,
               currency := currency, fee := 0, exchangeRate := none,
               circleTransferId := none, circleStatus := none,
               completedAtSet := false }]) wid
            = reservedTotal st.transactions wid := by
          intro wid
          rw [reservedTotal_append]
          simp [txReserve]
        rcases mem_map_ite_wallet hw with ⟨w0, hw0, -, rfl⟩ | ⟨hw0, -⟩
        · rw [hsum]
          exact hres w0 hw0
        · rw [hsum]
          exact hres w hw0

lemma sound_createTransfer {st : LedgerState} {userId : Nat} {cur : String}
    {amount rate : ℚ} (hamount : 0 < amount) (hs : Sound st) :
    Sound (createTransfer st userId cur amount rate).1 := by
  obtain ⟨hwid, htid, hbound, hnn, hav, hres⟩ := hs
  unfold createTransfer
  cases hfw : findWallet st userId cur with
  | none => exact ⟨hwid, htid, hbound, hnn, hav, hres⟩
  | some wallet =>
    dsimp only
    split
    · exact ⟨hwid, htid, hbound, hnn, hav, hres⟩
    next hsuff =>
      dsimp only [updateWallet, appendHistory]
      have hwmem : wallet ∈ st.wallets := List.mem_of_find?_eq_some hfw
      have hfee : 0 ≤ amount * feePercentage :=
        mul_nonneg (le_of_lt hamount) (by norm_num [feePercentage])
      refine ⟨?_, ?_, ?_, ?_, ?_, ?_⟩
      · exact nodup_wallet_ids_update _ (fun w => rfl) hwid
      · exact nodup_ids_append htid hbound rfl
      · intro t ht
        rcases List.mem_append.mp ht with h | h
        · exact Nat.lt_succ_of_lt (hbound t h)
        · rw [List.mem_singleton.mp h]
          exact Nat.lt_succ_self _
      · intro t ht
        rcases List.mem_append.mp ht with h | h
        · exact hnn t h
        · rw [List.mem_singleton.mp h]
          exact ⟨le_of_lt hamount, hfee⟩
      · intro w hw
        rcases mem_map_ite_wallet hw with ⟨w0, hw0, hid0, rfl⟩ | ⟨hw0, -⟩
        · have hW : w0 = wallet := wallet_eq_of_id hwid hw0 hwmem hid0
          show 0 ≤ w0.availableBalance - (amount + amount * feePercentage)
          rw [hW]
          have := not_lt.mp hsuff
          linarith
        · exact hav w hw0
      · intro w hw
        rcases mem_map_ite_wallet hw with ⟨w0, hw0, hid0, rfl⟩ | ⟨hw0, hne⟩
        · show reservedTotal (st.transactions ++ [_]) w0.id
            ≤ w0.reservedBalance + (amount + amount * feePercentage)
          rw [reservedTotal_append]
          have hx : txReserve w0.id
              { id := st.nextTxId, userId := userId, walletId := wallet.id,
                type := .TRANSFER_SEND, status := .PENDING, amount := amount,
                currency := cur, fee := amount * feePercentage,
                exchangeRate := some rate, circleTransferId := none,
                circleStatus := none, completedAtSet := false }
              = amount + amount * feePercentage := by
            simp [txReserve, hid0]
          rw [hx]
          have := hres w0 hw0
          linarith
        · rw [reservedTotal_append]
          have hx : txReserve w.id
              { id := st.nextTxId, userId := userId, walletId := wallet.id,
                type := .TRANSFER_SEND, status := .PENDING, amount := amount,
                currency := cur, fee := amount * feePercentage,
                exchangeRate := some rate, circleTransferId := none,
                circleStatus := none, completedAtSet := false }
              = 0 := by
            have hno : ¬ (wallet.id = w.id) := fun h => hne h.symm
            simp [txReserve, hno]
          rw [hx]
          have := hres w hw0
          linarith

lemma sound_createTransferFull {st : LedgerState} {userId : Nat}
    {cur : String} {amount rate : ℚ} {hasCircle : Bool}
    {gateway : Option String} (hamount : 0 < amount) (hs : Sound st) :
    Sound (createTransferFull st userId cur amount rate hasCircle
      gateway).1 := by
  have h1 : Sound (createTransfer st userId cur amount rate).1 :=
    sound_createTransfer hamount hs
  unfold createTransferFull
  cases hct : createTransfer st userId cur amount rate with
  | mk st1 r =>
    rw [hct] at h1
    cases r with
    | created txId =>
      dsimp only
      split
      · cases gateway with
        | some gid =>
          dsimp only
          have h2 : Sound (updateTx st1 txId fun t =>
              { t with circleTransferId := some gid
                       circleStatus := some "GATEWAY_PROCESSING" }) :=
            sound_updateTx_congr (fun t => rfl) (fun t => rfl) (fun t => rfl)
              (fun wid t => by simp [txReserve]) h1
          exact h2
        | none => exact h1
      · exact h1
    | walletNotFound => exact h1
    | insufficientFunds => exact h1
    | serverError => exact h1

lemma sound_handleTransactionCreated {st : LedgerState} {tid : String}
    (hs : Sound st) : Sound (handleTransactionCreated st tid) := by
  unfold handleTransactionCreated
  cases findTxByCircleId st tid with
  | none => exact hs
  | some tx => exact hs

lemma sound_handleTransactionConfirmed {st : LedgerState} {tid : String}
    (hs : Sound st) : Sound (handleTransactionConfirmed st tid) := by
  unfold handleTransactionConfirmed
  cases findTxByCircleId st tid with
  | none => exact hs
  | some tx => exact hs

lemma sound_handleTransactionCompleted {st : LedgerState} {tid : String}
    (hlive : ∀ tx, findTxByCircleId st tid = some tx → tx.status.live)
    (hs : Sound st) : Sound (handleTransactionCompleted st tid) := by
  obtain ⟨hwid, htid, hbound, hnn, hav, hres⟩ := hs
  unfold handleTransactionCompleted
  cases hfind : findTxByCircleId st tid with
  | none => exact ⟨hwid, htid, hbound, hnn, hav, hres⟩
  | some tx =>
    have hmem : tx ∈ st.transactions := findTxByCircleId_mem hfind
    have hlv : tx.status.live := hlive tx hfind
    have hnn' := hnn tx hmem
    dsimp only [updateTx, appendHistory]
    have hsettle : ∀ wid,
        reservedTotal (st.transactions.map fun t =>
          if t.id = tx.id then
            { t with status := .COMPLETED
                     completedAtSet := true
                     circleStatus := some "COMPLETED" }
          else t) wid
        = reservedTotal st.transactions wid - txReserve wid tx :=
      fun wid =>
        reservedTotal_settle htid hmem (fun w => by simp [txReserve]) wid
    have htx2 : ∀ t ∈ (st.transactions.map fun t =>
        if t.id = tx.id then
          { t with status := TxStatus.COMPLETED
                   completedAtSet := true
                   circleStatus := some "COMPLETED" }
        else t), t.id < st.nextTxId ∧ 0 ≤ t.amount ∧ 0 ≤ t.fee := by
      intro t ht
      rcases mem_map_ite_tx ht with ⟨t0, ht0, -, rfl⟩ | ⟨ht0, -⟩
      · exact ⟨hbound t0 ht0, hnn t0 ht0⟩
      · exact ⟨hbound t ht0, hnn t ht0⟩
    split
    · -- wallet row not found: balances untouched, reservations only shrink
      refine ⟨hwid, nodup_tx_ids_update _ (fun t => rfl) htid,
        fun t ht => (htx2 t ht).1, fun t ht => (htx2 t ht).2, hav, ?_⟩
      intro w hw
      rw [hsettle w.id]
      have h1 := hres w hw
      have h2 := txReserve_nonneg w.id hnn'
      linarith
    next wallet heq =>
      have hfw : findWalletById st tx.walletId = some wallet := heq
      obtain ⟨hwmem, hwideq⟩ := findWalletById_spec hfw
      dsimp only [updateWallet]
      refine ⟨nodup_wallet_ids_update _ (fun w => rfl) hwid,
        nodup_tx_ids_update _ (fun t => rfl) htid,
        fun t ht => (htx2 t ht).1, fun t ht => (htx2 t ht).2, ?_, ?_⟩
      · intro w hw
        rcases mem_map_ite_wallet hw with ⟨w0, hw0, -, rfl⟩ | ⟨hw0, -⟩
        · exact hav w0 hw0
        · exact hav w hw0
      · intro w hw
        rcases mem_map_ite_wallet hw with ⟨w0, hw0, hid0, rfl⟩ | ⟨hw0, hne⟩
        · show reservedTotal _ w0.id
            ≤ w0.reservedBalance - (tx.amount + tx.fee)
          rw [hsettle w0.id]
          have hx : txReserve w0.id tx = tx.amount + tx.fee := by
            have hcond : tx.walletId = w0.id := by rw [hid0, hwideq]
            simp only [txReserve]
            rw [if_pos ⟨hcond, hlv⟩]
          rw [hx]
          have := hres w0 hw0
          linarith
        · rw [hsettle w.id]
          have hx : txReserve w.id tx = 0 := by
            have hcond : ¬ (tx.walletId = w.id) := by
              rw [← hwideq]
              exact fun h => hne h.symm
            simp [txReserve, hcond]
          rw [hx]
          have := hres w hw0
          linarith

lemma sound_handleTransactionFailed {st : LedgerState} {tid : String}
    (hlive : ∀ tx, findTxByCircleId st tid = some tx → tx.status.live)
    (hs : Sound st) : Sound (handleTransactionFailed st tid) := by
  obtain ⟨hwid, htid, hbound, hnn, hav, hres⟩ := hs
  unfold handleTransactionFailed
  cases hfind : findTxByCircleId st tid with
  | none => exact ⟨hwid, htid, hbound, hnn, hav, hres⟩
  | some tx =>
    have hmem : tx ∈ st.transactions := findTxByCircleId_mem hfind
    have hlv : tx.status.live := hlive tx hfind
    have hnn' := hnn tx hmem
    dsimp only [updateTx, appendHistory]
    have hsettle : ∀ wid,
        reservedTotal (st.transactions.map fun t =>
          if t.id = tx.id then
            { t with status := .FAILED
                     circleStatus := some "FAILED" }
          else t) wid
        = reservedTotal st.transactions wid - txReserve wid tx :=
      fun wid =>
        reservedTotal_settle htid hmem (fun w => by simp [txReserve]) wid
    have htx2 : ∀ t ∈ (st.transactions.map fun t =>
        if t.id = tx.id then
          { t with status := TxStatus.FAILED
                   circleStatus := some "FAILED" }
        else t), t.id < st.nextTxId ∧ 0 ≤ t.amount ∧ 0 ≤ t.fee := by
      intro t ht
      rcases mem_map_ite_tx ht with ⟨t0, ht0, -, rfl⟩ | ⟨ht0, -⟩
      · exact ⟨hbound t0 ht0, hnn t0 ht0⟩
      · exact ⟨hbound t ht0, hnn t ht0⟩
    split
    · refine ⟨hwid, nodup_tx_ids_update _ (fun t => rfl) htid,
        fun t ht => (htx2 t ht).1, fun t ht => (htx2 t ht).2, hav, ?_⟩
      intro w hw
      rw [hsettle w.id]
      have h1 := hres w hw
      have h2 := txReserve_nonneg w.id hnn'
      linarith
    next wallet heq =>
      have hfw : findWalletById st tx.walletId = some wallet := heq
      obtain ⟨hwmem, hwideq⟩ := findWalletById_spec hfw
      dsimp only [updateWallet]
      refine ⟨nodup_wallet_ids_update _ (fun w => rfl) hwid,
        nodup_tx_ids_update _ (fun t => rfl) htid,
        fun t ht => (htx2 t ht).1, fun t ht => (htx2 t ht).2, ?_, ?_⟩
      · intro w hw
        rcases mem_map_ite_wallet hw with ⟨w0, hw0, -, rfl⟩ | ⟨hw0, -⟩
        · show 0 ≤ w0.availableBalance + (tx.amount + tx.fee)
          have := hav w0 hw0
          linarith [hnn'.1, hnn'.2]
        · exact hav w hw0
      · intro w hw
        rcases mem_map_ite_wallet hw with ⟨w0, hw0, hid0, rfl⟩ | ⟨hw0, hne⟩
        · show reservedTotal _ w0.id
            ≤ w0.reservedBalance - (tx.amount + tx.fee)
          rw [hsettle w0.id]
          have hx : txReserve w0.id tx = tx.amount + tx.fee := by
            have hcond : tx.walletId = w0.id := by rw [hid0, hwideq]
            simp only [txReserve]
            rw [if_pos ⟨hcond, hlv⟩]
          rw [hx]
          have := hres w0 hw0
          linarith
        · rw [hsettle w.id]
          have hx : txReserve w.id tx = 0 := by
            have hcond : ¬ (tx.walletId = w.id) := by
              rw [← hwideq]
              exact fun h => hne h.symm
            simp [txReserve, hcond]
          rw [hx]
          have := hres w hw0
          linarith

lemma sound_updateTransactionStatus {st : LedgerState} {userId txId : Nat}
    {newStatus : TxStatus} {message : String}
    (hlive : ∀ tx,
      st.transactions.find? (fun t => t.id = txId && t.userId = userId)
        = some tx → tx.status.live)
    (hs : Sound st) :
    Sound (updateTransactionStatus st userId txId newStatus message).1 := by
  obtain ⟨hwid, htid, hbound, hnn, hav, hres⟩ := hs
  unfold updateTransactionStatus
  cases hfind : st.transactions.find?
      (fun t => t.id = txId && t.userId = userId) with
  | none => exact ⟨hwid, htid, hbound, hnn, hav, hres⟩
  | some tx =>
    have hmem : tx ∈ st.transactions := List.mem_of_find?_eq_some hfind
    have hlv : tx.status.live := hlive tx hfind
    have hnn' := hnn tx hmem
    dsimp only [updateTx, appendHistory]
    split
    next hcomp =>
      have htx2 : ∀ t ∈ (st.transactions.map fun t =>
          if t.id = tx.id then
            { t with status := newStatus, completedAtSet := true }
          else t), t.id < st.nextTxId ∧ 0 ≤ t.amount ∧ 0 ≤ t.fee := by
        intro t ht
        rcases mem_map_ite_tx ht with ⟨t0, ht0, -, rfl⟩ | ⟨ht0, -⟩
        · exact ⟨hbound t0 ht0, hnn t0 ht0⟩
        · exact ⟨hbound t ht0, hnn t ht0⟩
      have hsettle : ∀ wid, reservedTotal (st.transactions.map fun t =>
          if t.id = tx.id then
            { t with status := newStatus, completedAtSet := true }
          else t) wid
          = reservedTotal st.transactions wid - txReserve wid tx :=
        fun wid => reservedTotal_settle htid hmem
          (fun w => by simp [txReserve, hcomp]) wid
      split
      · refine ⟨hwid, nodup_tx_ids_update _ (fun t => rfl) htid,
          fun t ht => (htx2 t ht).1, fun t ht => (htx2 t ht).2, hav, ?_⟩
        intro w hw
        rw [hsettle w.id]
        have h1 := hres w hw
        have h2 := txReserve_nonneg w.id hnn'
        linarith
      next wallet heq =>
        have hfw : findWalletById st tx.walletId = some wallet := heq
        obtain ⟨hwmem, hwideq⟩ := findWalletById_spec hfw
        dsimp only [updateWallet]
        refine ⟨nodup_wallet_ids_update _ (fun w => rfl) hwid,
          nodup_tx_ids_update _ (fun t => rfl) htid,
          fun t ht => (htx2 t ht).1, fun t ht => (htx2 t ht).2, ?_, ?_⟩
        · intro w hw
          rcases mem_map_ite_wallet hw with ⟨w0, hw0, -, rfl⟩ | ⟨hw0, -⟩
          · exact hav w0 hw0
          · exact hav w hw0
        · intro w hw
          rcases mem_map_ite_wallet hw with ⟨w0, hw0, hid0, rfl⟩ | ⟨hw0, hne⟩
          · show reservedTotal _ w0.id
              ≤ w0.reservedBalance - (tx.amount + tx.fee)
            rw [hsettle w0.id]
            have hx : txReserve w0.id tx = tx.amount + tx.fee := by
              have hcond : tx.walletId = w0.id := by rw [hid0, hwideq]
              simp only [txReserve]
              rw [if_pos ⟨hcond, hlv⟩]
            rw [hx]
            have := hres w0 hw0
            linarith
          · rw [hsettle w.id]
            have hx : txReserve w.id tx = 0 := by
              have hcond : ¬ (tx.walletId = w.id) := by
                rw [← hwideq]
                exact fun h => hne h.symm
              simp [txReserve, hcond]
            rw [hx]
            have := hres w hw0
            linarith
    next hncomp =>
      have htx2 : ∀ t ∈ (st.transactions.map fun t =>
          if t.id = tx.id then
            { t with status := newStatus, completedAtSet := t.completedAtSet }
          else t), t.id < st.nextTxId ∧ 0 ≤ t.amount ∧ 0 ≤ t.fee := by
        intro t ht
        rcases mem_map_ite_tx ht with ⟨t0, ht0, -, rfl⟩ | ⟨ht0, -⟩
        · exact ⟨hbound t0 ht0, hnn t0 ht0⟩
        · exact ⟨hbound t ht0, hnn t ht0⟩
      have hle : ∀ wid, txReserve wid
          { tx with status := newStatus, completedAtSet := tx.completedAtSet }
          ≤ txReserve wid tx := by
        intro wid
        simp only [txReserve]
        split_ifs with h1 h2 h2
        · exact le_refl _
        · exact absurd ⟨h1.1, hlv⟩ h2
        · linarith [hnn'.1, hnn'.2]
        · exact le_refl 0
      have hdec : ∀ wid, reservedTotal (st.transactions.map fun t =>
          if t.id = tx.id then
            { t with status := newStatus, completedAtSet := t.completedAtSet }
          else t) wid ≤ reservedTotal st.transactions wid :=
        fun wid => reservedTotal_update_le htid hmem hle wid
      refine ⟨hwid, nodup_tx_ids_update _ (fun t => rfl) htid,
        fun t ht => (htx2 t ht).1, fun t ht => (htx2 t ht).2, hav, ?_⟩
      intro w hw
      have h1 := hdec w.id
      have h2 := hres w hw
      linarith

lemma sound_dstep {st st' : LedgerState} (hstep : DStep st st')
    (hs : Sound st) : Sound st' := by
  cases hstep with
  | reserve _ _ _ _ _ _ hamount => exact sound_createTransferFull hamount hs
  | createdWebhook _ => exact sound_handleTransactionCreated hs
  | confirmedWebhook _ => exact sound_handleTransactionConfirmed hs
  | completedWebhook _ hlive => exact sound_handleTransactionCompleted hlive hs
  | failedWebhook _ hlive => exact sound_handleTransactionFailed hlive hs
  | statusUpdate _ _ _ _ hlive => exact sound_updateTransactionStatus hlive hs
  | deposit _ _ _ => exact sound_addFunds hs

lemma sound_dreaches {st st' : LedgerState} (hr : DReaches st st')
    (hs : Sound st) : Sound st' := by
  induction hr with
  | refl => exact hs
  | tail h hstep ih => exact sound_dstep hstep ih

lemma sound_nonneg {st : LedgerState} (hs : Sound st) :
    ∀ w ∈ st.wallets, 0 ≤ w.availableBalance ∧ 0 ≤ w.reservedBalance := by
  obtain ⟨-, -, -, hnn, hav, hres⟩ := hs
  intro w hw
  exact ⟨hav w hw, le_trans (reservedTotal_nonneg hnn w.id) (hres w hw)⟩

/-- Claim C6 (amended): starting from a well-formed state (unique row ids,
nonnegative transaction amounts, available balances nonnegative, reserved
balances covering the in-flight reservations), every state reached under
the single-settlement discipline — each transaction receives at most one
terminal transition, which is what the spec's idempotency rule demands —
keeps `availableBalance ≥ 0` and `reservedBalance ≥ 0` on every wallet.
Without that discipline the property fails
(see `reserved_balance_can_go_negative`). -/
theorem balances_nonneg_of_disciplined {st st' : LedgerState}
    (hs : Sound st) (hr : DReaches st st') :
    ∀ w ∈ st'.wallets, 0 ≤ w.availableBalance ∧ 0 ≤ w.reservedBalance :=
  sound_nonneg (sound_dreaches hr hs)

/-- Witness for the amended C6: one disciplined deposit of 1000 USD from
the fresh zero wallet keeps both balances nonnegative. -/
theorem balances_nonneg_of_disciplined_witness :
    Sound c6s0 ∧
    (∀ w ∈ c6s1.wallets, 0 ≤ w.availableBalance ∧ 0 ≤ w.reservedBalance) := by
  have hs : Sound c6s0 := by
    refine ⟨?_, ?_, ?_, ?_, ?_, ?_⟩ <;>
      simp [c6s0, zeroWallet, reservedTotal]
  exact ⟨hs, balances_nonneg_of_disciplined hs
    (DReaches.tail (DReaches.refl c6s0) (DStep.deposit c6s0 1 "USD" 1000))⟩

end TransferBackend
